import Mathlib

/-!
Verification of the ffox-remote protocol engine (window matching, lock
protocol, response handling, and the `_MOZILLA_COMMANDLINE` encoder)
against a shallow Lean embedding of the Go source in `main.go`.

Go byte strings are modelled as `List Nat` (one entry per byte) where
byte-level structure matters (the command-line encoder), and as
`List Char` where only per-character equality and suffix tests matter
(the property-matching code, which only compares ASCII values).
-/

namespace FfoxRemote

/-! ## Command-line encoder (`encodeCommandLine`, `addArgStr`)

`addArgStr(w, s)` writes `s` followed by a single 0 byte and returns the
number of bytes written.  `encodeCommandLine(pwd, args)` builds a header of
`len(args)+1` little-endian uint32 values (`arr[0] = argc`,
`arr[i+1] =` absolute offset of `args[i]`), followed by the
NUL-terminated working directory and NUL-terminated arguments. -/

/-- The bytes written for one argument: the string plus a trailing 0 byte
(Go `addArgStr`). -/
def addArgStr (s : List Nat) : List Nat := s ++ [0]

/-- The concatenation of a list of NUL-terminated strings: the tail
(`arenc`) of the encoded buffer after the working directory. -/
def packNul (args : List (List Nat)) : List Nat :=
  (args.map addArgStr).flatten

/-- The running-offset loop of `encodeCommandLine`: starting at byte
offset `off`, the offset of each successive argument
(`arr[i+1] = off; off += addArgStr(...)`). -/
def argOffsets (off : Nat) : List (List Nat) → List Nat
  | [] => []
  | a :: rest => off :: argOffsets (off + a.length + 1) rest

/-- Little-endian byte encoding of a `uint32` value, as produced by
`binary.Write(buf, binary.LittleEndian, arr)` for one array element. -/
def leBytes32 (n : Nat) : List Nat :=
  [n % 256, n / 256 % 256, n / 65536 % 256, n / 16777216 % 256]

/-- The header array `arr` of `encodeCommandLine`: `arr[0] = uint32(argc)`
and `arr[i+1] = uint32(off_i)` where `off` starts at `len(arr)*4` and is
first advanced by `addArgStr` over the working directory.  The `% 2^32`
is the Go `uint32(...)` conversion. -/
def encodeArr (pwd : List Nat) (args : List (List Nat)) : List Nat :=
  (args.length % 4294967296) ::
    (argOffsets ((args.length + 1) * 4 + (pwd.length + 1)) args).map
      (fun o => o % 4294967296)

/-- Go `encodeCommandLine(pwd, args)`: the little-endian encoded header
array followed by the argument string buffer
`arenc = pwd ++ [0] ++ args each NUL-terminated`. -/
def encodeCommandLine (pwd : List Nat) (args : List (List Nat)) : List Nat :=
  ((encodeArr pwd args).map leBytes32).flatten ++ ((pwd ++ [0]) ++ packNul args)

/-! ### Decoder side, per the documented layout -/

/-- Read a little-endian uint32 from the first four bytes of a list
(missing bytes read as 0). -/
def le32 (l : List Nat) : Nat :=
  l.getD 0 0 + 256 * l.getD 1 0 + 65536 * l.getD 2 0 + 16777216 * l.getD 3 0

/-- Read the little-endian uint32 at byte offset `i` of a buffer. -/
def readLE32 (buf : List Nat) (i : Nat) : Nat := le32 (buf.drop i)

/-- The NUL-terminated string starting at absolute byte offset `off` of a
buffer: the bytes up to (not including) the first 0 byte. -/
def cString (buf : List Nat) (off : Nat) : List Nat :=
  (buf.drop off).takeWhile (fun b => b != 0)

/-! ### Structural lemmas about the encoder -/

theorem leBytes32_length (n : Nat) : (leBytes32 n).length = 4 := rfl

theorem le32_leBytes32 (m : Nat) (rest : List Nat) :
    le32 (leBytes32 m ++ rest) = m % 4294967296 := by
  simp only [leBytes32, le32, List.cons_append, List.nil_append,
    List.getD_cons_zero, List.getD_cons_succ]
  omega

theorem flatten_leBytes32_length (l : List Nat) :
    ((l.map leBytes32).flatten).length = 4 * l.length := by
  induction l with
  | nil => rfl
  | cons x xs ih =>
    simp [List.flatten, ih, leBytes32]
    omega

theorem drop_flatten_leBytes32 (j : Nat) (l : List Nat) :
    ((l.map leBytes32).flatten).drop (4 * j)
      = ((l.drop j).map leBytes32).flatten := by
  induction j generalizing l with
  | zero => simp
  | succ j ih =>
    cases l with
    | nil => simp
    | cons x xs =>
      have h4 : 4 * (j + 1) = 4 + 4 * j := by omega
      calc (((x :: xs).map leBytes32).flatten).drop (4 * (j + 1))
          = ((leBytes32 x ++ (xs.map leBytes32).flatten).drop 4).drop (4 * j) := by
            simp [List.map_cons, List.flatten, h4, List.drop_drop]
        _ = ((xs.map leBytes32).flatten).drop (4 * j) := by
            rw [show (4 : Nat) = (leBytes32 x).length from rfl, List.drop_left]
        _ = ((xs.drop j).map leBytes32).flatten := ih xs

theorem packNul_append (xs ys : List (List Nat)) :
    packNul (xs ++ ys) = packNul xs ++ packNul ys := by
  simp [packNul]

theorem packNul_cons (a : List Nat) (xs : List (List Nat)) :
    packNul (a :: xs) = (a ++ [0]) ++ packNul xs := by
  simp [packNul, addArgStr]

theorem packNul_take_length_le (args : List (List Nat)) (i : Nat) :
    (packNul (args.take i)).length ≤ (packNul args).length := by
  conv_rhs => rw [← List.take_append_drop i args]
  rw [packNul_append]
  simp

theorem argOffsets_length (b : Nat) (args : List (List Nat)) :
    (argOffsets b args).length = args.length := by
  induction args generalizing b with
  | nil => rfl
  | cons a rest ih => simp [argOffsets, ih]

theorem argOffsets_drop (args : List (List Nat)) :
    ∀ b i, i < args.length →
      ∃ tail, (argOffsets b args).drop i
        = (b + (packNul (args.take i)).length) :: tail := by
  induction args with
  | nil => intro b i h; simp at h
  | cons a rest ih =>
    intro b i h
    cases i with
    | zero =>
      exact ⟨argOffsets (b + a.length + 1) rest, by simp [argOffsets, packNul]⟩
    | succ j =>
      have hj : j < rest.length := by simpa using h
      obtain ⟨tail, htail⟩ := ih (b + a.length + 1) j hj
      refine ⟨tail, ?_⟩
      rw [argOffsets, List.drop_succ_cons, htail, List.take_succ_cons,
        packNul_cons]
      congr 1
      simp
      omega

theorem encodeArr_length (pwd : List Nat) (args : List (List Nat)) :
    (encodeArr pwd args).length = args.length + 1 := by
  simp [encodeArr, argOffsets_length]

theorem encodeCommandLine_length (pwd : List Nat) (args : List (List Nat)) :
    (encodeCommandLine pwd args).length
      = 4 * (args.length + 1) + (pwd.length + 1) + (packNul args).length := by
  rw [encodeCommandLine, List.length_append, flatten_leBytes32_length,
    encodeArr_length]
  simp
  omega

theorem readLE32_encode_zero (pwd : List Nat) (args : List (List Nat)) :
    readLE32 (encodeCommandLine pwd args) 0 = args.length % 4294967296 := by
  rw [readLE32, encodeCommandLine, List.drop_zero, encodeArr, List.map_cons,
    List.flatten_cons, List.append_assoc, le32_leBytes32]
  omega

theorem readLE32_encode_header (pwd : List Nat) (args : List (List Nat))
    (i : Nat) (h : i < args.length) :
    readLE32 (encodeCommandLine pwd args) (4 * (i + 1))
      = ((args.length + 1) * 4 + (pwd.length + 1)
          + (packNul (args.take i)).length) % 4294967296 := by
  obtain ⟨tail, htail⟩ :=
    argOffsets_drop args ((args.length + 1) * 4 + (pwd.length + 1)) i h
  rw [readLE32, encodeCommandLine, List.drop_append_eq_append_drop]
  have hh : (((encodeArr pwd args).map leBytes32).flatten).length
      = 4 * (args.length + 1) := by
    rw [flatten_leBytes32_length, encodeArr_length]
  have h0 : 4 * (i + 1) - (((encodeArr pwd args).map leBytes32).flatten).length
      = 0 := by
    rw [hh]; omega
  rw [h0, List.drop_zero, drop_flatten_leBytes32, encodeArr,
    List.drop_succ_cons, ← List.map_drop, htail, List.map_cons, List.map_cons,
    List.flatten_cons, List.append_assoc, le32_leBytes32]
  omega

theorem encode_drop_arg (pwd : List Nat) (args : List (List Nat))
    (i : Nat) (h : i < args.length) :
    (encodeCommandLine pwd args).drop
        ((args.length + 1) * 4 + (pwd.length + 1)
          + (packNul (args.take i)).length)
      = args[i] ++ 0 :: packNul (args.drop (i + 1)) := by
  have hh : (((encodeArr pwd args).map leBytes32).flatten).length
      = 4 * (args.length + 1) := by
    rw [flatten_leBytes32_length, encodeArr_length]
  have hB : (args.length + 1) * 4 + (pwd.length + 1)
        + (packNul (args.take i)).length
      = 4 * (args.length + 1)
        + ((pwd.length + 1) + (packNul (args.take i)).length) := by
    omega
  rw [encodeCommandLine, hB, ← List.drop_drop, ← hh, List.drop_left,
    ← List.drop_drop]
  have hp : (pwd ++ [0]).length = pwd.length + 1 := by simp
  rw [← hp, List.drop_left]
  have hsplit : packNul args
      = packNul (args.take i) ++ packNul (args.drop i) := by
    conv_lhs => rw [← List.take_append_drop i args]
    rw [packNul_append]
  rw [hsplit, List.drop_left, List.drop_eq_getElem_cons h, packNul_cons]
  simp

theorem takeWhile_append_nul (l r : List Nat) (h : (0 : Nat) ∉ l) :
    (l ++ 0 :: r).takeWhile (fun b => b != 0) = l := by
  induction l with
  | nil =>
    simp
  | cons a l ih =>
    have ha : a ≠ 0 := fun e => h (by simp [e])
    have h2 : (0 : Nat) ∉ l := fun e => h (List.mem_cons_of_mem a e)
    rw [List.cons_append, List.takeWhile_cons_of_pos (by simpa using ha), ih h2]

/-- **C1.** Encoding round-trip: for any working directory and any
NUL-free argument list, decoding `encodeCommandLine pwd args` per the
documented layout recovers `args` exactly: the first header word is
`len(args)`, and for each `i` the header word at byte `4*(i+1)` is the
absolute offset of a NUL-terminated region whose contents are `args[i]`.
The size hypothesis keeps every `uint32` offset below `2^32`. -/
theorem encodeCommandLine_roundtrip (pwd : List Nat) (args : List (List Nat))
    (hnul : ∀ a ∈ args, (0 : Nat) ∉ a)
    (hsz : (encodeCommandLine pwd args).length < 4294967296) :
    readLE32 (encodeCommandLine pwd args) 0 = args.length ∧
    ∀ i : Nat, ∀ h : i < args.length,
      (∃ rest, (encodeCommandLine pwd args).drop
          (readLE32 (encodeCommandLine pwd args) (4 * (i + 1)))
          = args[i] ++ 0 :: rest) ∧
      cString (encodeCommandLine pwd args)
          (readLE32 (encodeCommandLine pwd args) (4 * (i + 1)))
        = args[i] := by
  have hlen := encodeCommandLine_length pwd args
  constructor
  · rw [readLE32_encode_zero]
    omega
  · intro i h
    have hb : (args.length + 1) * 4 + (pwd.length + 1)
        + (packNul (args.take i)).length < 4294967296 := by
      have := packNul_take_length_le args i
      omega
    have hoff : readLE32 (encodeCommandLine pwd args) (4 * (i + 1))
        = (args.length + 1) * 4 + (pwd.length + 1)
          + (packNul (args.take i)).length := by
      rw [readLE32_encode_header pwd args i h]
      exact Nat.mod_eq_of_lt hb
    have hdrop := encode_drop_arg pwd args i h
    refine ⟨⟨packNul (args.drop (i + 1)), by rw [hoff]; exact hdrop⟩, ?_⟩
    rw [cString, hoff, hdrop]
    exact takeWhile_append_nul _ _ (hnul _ (List.getElem_mem h))

/-- The bytes of the ASCII string `"firefox"`. -/
def ffStr : List Nat := [102, 105, 114, 101, 102, 111, 120]

/-- The bytes of the ASCII string `"-new-window"`. -/
def nwStr : List Nat := [45, 110, 101, 119, 45, 119, 105, 110, 100, 111, 119]

/-- **C1 witness.** The round-trip theorem instantiated at
`pwd = "/"`, `args = ["firefox", "-new-window"]`. -/
theorem encodeCommandLine_roundtrip_witness :
    (∀ a ∈ [ffStr, nwStr], (0 : Nat) ∉ a) ∧
    (encodeCommandLine [47] [ffStr, nwStr]).length < 4294967296 ∧
    (readLE32 (encodeCommandLine [47] [ffStr, nwStr]) 0 = 2 ∧
      ∀ i : Nat, ∀ h : i < ([ffStr, nwStr] : List (List Nat)).length,
        (∃ rest, (encodeCommandLine [47] [ffStr, nwStr]).drop
            (readLE32 (encodeCommandLine [47] [ffStr, nwStr]) (4 * (i + 1)))
            = [ffStr, nwStr][i] ++ 0 :: rest) ∧
        cString (encodeCommandLine [47] [ffStr, nwStr])
            (readLE32 (encodeCommandLine [47] [ffStr, nwStr]) (4 * (i + 1)))
          = [ffStr, nwStr][i]) :=
  ⟨by decide, by decide,
    encodeCommandLine_roundtrip [47] [ffStr, nwStr] (by decide) (by decide)⟩

/-- **C3 counterexample.** The claim asserts the encoded header for
`encode("/", ["firefox", "-new-window"])` begins `[2, 12, ...]`, i.e.
that the second header word is 12.  In fact `header[1]` is the offset of
`argv[0] = "firefox"`, which lies *after* the NUL-terminated working
directory `"/\0"` occupying bytes 12..13, so `header[1] = 14`. -/
theorem encode_example_header1_ne_12 :
    readLE32 (encodeCommandLine [47] [ffStr, nwStr]) 4 = 14 ∧
    readLE32 (encodeCommandLine [47] [ffStr, nwStr]) 4 ≠ 12 := by
  decide

/-- **C3 (amended).** `encode("/", ["firefox", "-new-window"])` yields
the header `[2, 14, 22]` (12 header bytes; the working directory starts
at byte 12, `"firefox"` at byte 14, `"-new-window"` at byte 22) followed
by the bytes `"/\0firefox\0-new-window\0"`, offsets measured from the
start of the buffer. -/
theorem encode_example_exact :
    encodeCommandLine [47] [ffStr, nwStr]
      = leBytes32 2 ++ leBytes32 14 ++ leBytes32 22
        ++ [47, 0] ++ ffStr ++ [0] ++ nwStr ++ [0] := by
  decide

/-! ## Window property matching (`propMatch`, `profileMatch`)

Property values are modelled as `Option (List Char)`: `none` is a failed
`xprop.GetProperty` (absent property), `some sv` a successful read of
the string `sv`.  `profileMatch` returns `Option Bool`: `none` models
the Go runtime panic raised by `sv[0]` when `sv` is the empty string. -/

/-- Go `propMatch`: false on a failed property read, otherwise true iff
the filter is empty or equals the property string. -/
def propMatch (pv : Option (List Char)) (val : List Char) : Bool :=
  match pv with
  | none => false
  | some sv => val = [] ∨ sv = val

/-- Go `profileMatch`: like `propMatch`, but additionally accepts a
property value that is a full path (starts with `'/'`) whose
`"." ++ val` suffix matches a non-path filter.  Evaluating `sv[0]` when
`sv = ""` panics (`none`). -/
def profileMatch (pv : Option (List Char)) (val : List Char) : Option Bool :=
  match pv with
  | none => some false
  | some sv =>
    if val = [] ∨ sv = val then some true
    else
      match sv with
      | [] => none
      | c :: _ =>
        some (c == '/' && val.headD ' ' != '/' && ('.' :: val).isSuffixOf sv)

/-- **C4 counterexample.** The claim asserts an empty filter matches even
when the identity property is absent (the property read fails).  In the
code the failed-read branch returns `false` *before* the empty-filter
test, so an absent property never matches, not even with an empty
filter. -/
theorem propMatch_absent_empty_filter :
    propMatch none [] = false ∧ profileMatch none [] = some false := by
  decide

/-- **C4 (amended).** An empty filter value matches unconditionally among
windows on which the identity property is present (the read succeeds);
when the property read fails, the window does not match, regardless of
the filter — including the empty filter. -/
theorem propMatch_empty_filter :
    (∀ sv, propMatch (some sv) [] = true) ∧
    (∀ sv, profileMatch (some sv) [] = some true) ∧
    (∀ val, propMatch none val = false) ∧
    (∀ val, profileMatch none val = some false) := by
  refine ⟨fun sv => ?_, fun sv => ?_, fun val => ?_, fun val => ?_⟩ <;>
    simp [propMatch, profileMatch]

/-- **C5 counterexample.** The claim asserts the suffix rule also covers
the pure path-suffix form `"/" ++ filter`.  It does not: the property
value `"/home/u/profiles/default"` ends in `"/default"` but not in
`".default"`, and the code only tests the `"." ++ filter` suffix, so the
match fails. -/
theorem profileMatch_no_slash_suffix :
    profileMatch (some ("/home/u/profiles/default".toList))
      ("default".toList) = some false := by
  decide

/-- **C5 (amended).** Besides exact equality (and the empty wildcard
filter), profile matching accepts exactly one extra case: the stored
value starts with `'/'`, the filter does not start with `'/'`, and the
stored value ends with `"." ++ filter` (the legacy dot-suffix naming
convention).  The pure path-suffix form `"/" ++ filter` is *not*
supported.  In particular `"/home/u/.mozilla/firefox/xyz.default"`
matches filter `"default"`, does not match `"xyz.default"`, and matches
the full path exactly. -/
theorem profileMatch_dot_suffix (sv val : List Char)
    (h1 : sv ≠ []) (h2 : val ≠ []) (h3 : sv ≠ val) :
    (profileMatch (some sv) val = some true ↔
      (sv.headD ' ' = '/' ∧ val.headD ' ' ≠ '/' ∧
        ('.' :: val).isSuffixOf sv = true)) ∧
    profileMatch (some ("/home/u/.mozilla/firefox/xyz.default".toList))
      ("default".toList) = some true ∧
    profileMatch (some ("/home/u/.mozilla/firefox/xyz.default".toList))
      ("xyz.default".toList) = some false ∧
    profileMatch (some ("/home/u/.mozilla/firefox/xyz.default".toList))
      ("/home/u/.mozilla/firefox/xyz.default".toList) = some true := by
  refine ⟨?_, by decide, by decide, by decide⟩
  cases sv with
  | nil => exact absurd rfl h1
  | cons c tl =>
    simp only [profileMatch, h2, h3, or_self, if_false, List.headD_cons,
      Option.some.injEq, Bool.and_eq_true, beq_iff_eq, bne_iff_ne]
    tauto

/-- **C5 witness.** The dot-suffix characterization instantiated at the
property value `"/a.d"` and filter `"d"`. -/
theorem profileMatch_dot_suffix_witness :
    (['/', 'a', '.', 'd'] : List Char) ≠ [] ∧
    (['d'] : List Char) ≠ [] ∧
    (['/', 'a', '.', 'd'] : List Char) ≠ ['d'] ∧
    ((profileMatch (some ['/', 'a', '.', 'd']) ['d'] = some true ↔
      ((['/', 'a', '.', 'd'] : List Char).headD ' ' = '/' ∧
        (['d'] : List Char).headD ' ' ≠ '/' ∧
        ('.' :: ['d']).isSuffixOf ['/', 'a', '.', 'd'] = true)) ∧
      profileMatch (some ("/home/u/.mozilla/firefox/xyz.default".toList))
        ("default".toList) = some true ∧
      profileMatch (some ("/home/u/.mozilla/firefox/xyz.default".toList))
        ("xyz.default".toList) = some false ∧
      profileMatch (some ("/home/u/.mozilla/firefox/xyz.default".toList))
        ("/home/u/.mozilla/firefox/xyz.default".toList) = some true) :=
  ⟨by decide, by decide, by decide,
    profileMatch_dot_suffix ['/', 'a', '.', 'd'] ['d']
      (by decide) (by decide) (by decide)⟩

/-- **C10.** `profileMatch` panics (models as `none`) exactly when the
profile property is present with the empty string as its value and the
filter is non-empty: the code then evaluates `sv[0]` on the empty
string, a Go index-out-of-range panic.  In every other situation
(non-empty property value, failed read, empty filter) it is total. -/
theorem profileMatch_empty_value_panics (val : List Char) (h : val ≠ []) :
    profileMatch (some []) val = none ∧
    (∀ sv v, sv ≠ [] → profileMatch (some sv) v ≠ none) ∧
    (∀ v, profileMatch none v ≠ none) ∧
    (∀ sv, profileMatch (some sv) [] ≠ none) := by
  refine ⟨?_, fun sv v hsv => ?_, fun v => by simp [profileMatch],
    fun sv => by simp [profileMatch]⟩
  · have hne : ¬(val = [] ∨ ([] : List Char) = val) := by
      simp [h, eq_comm]
    simp [profileMatch, hne, h]
  · cases sv with
    | nil => exact absurd rfl hsv
    | cons c tl =>
      simp only [profileMatch]
      split
      · simp
      · simp

/-- **C10 witness.** The panic case and the totality cases at the filter
`"d"`. -/
theorem profileMatch_empty_value_panics_witness :
    (['d'] : List Char) ≠ [] ∧
    (profileMatch (some []) ['d'] = none ∧
      (∀ sv v, sv ≠ [] → profileMatch (some sv) v ≠ none) ∧
      (∀ v, profileMatch none v ≠ none) ∧
      (∀ sv, profileMatch (some sv) [] ≠ none)) :=
  ⟨by decide, profileMatch_empty_value_panics ['d'] (by decide)⟩

/-! ## Window discovery (`findFirefox`)

A candidate window is modelled by the values the loop body reads from
it: its handle and the four identity properties (each `none` when the
property read fails).  The list models the effective client windows
obtained from the children of the root window. -/

structure FWin where
  id : Nat
  vers : Option (List Char)
  user : Option (List Char)
  profile : Option (List Char)
  prog : Option (List Char)
deriving DecidableEq

/-- The fixed protocol version constant `firefoxVersion = "5.1"`. -/
def firefoxVersion : List Char := ['5', '.', '1']

/-- Outcome of the `findFirefox` loop body on one candidate window. -/
inductive WinCheck where
  | skip
  | wrongVersion (v : List Char)
  | hit
  | panic
deriving DecidableEq

/-- One iteration of the `findFirefox` loop: skip windows without a
readable version property; remember a wrong version; otherwise test the
three identity properties (in the code's short-circuit order, so a
`profileMatch` panic is reached only when the user property matched). -/
def checkWin (user profile prog : List Char) (w : FWin) : WinCheck :=
  match w.vers with
  | none => .skip
  | some v =>
    if v = firefoxVersion then
      if propMatch w.user user then
        match profileMatch w.profile profile with
        | none => .panic
        | some pm => if pm && propMatch w.prog prog then .hit else .skip
      else .skip
    else .wrongVersion v

/-- Result of `findFirefox`: the Go function returns the window handle
on `found`, and `0` on `notFound` (printing a warning when the
remembered wrong version is non-empty); `panicked` models the Go runtime
panic propagating out of `profileMatch`. -/
inductive FindResult where
  | found (id : Nat)
  | notFound (wrongver : List Char)
  | panicked
deriving DecidableEq

/-- The `findFirefox` scan with the running `wrongver` accumulator. -/
def findFirefoxFrom (user profile prog wrongver : List Char) :
    List FWin → FindResult
  | [] => .notFound wrongver
  | w :: ws =>
    match checkWin user profile prog w with
    | .skip => findFirefoxFrom user profile prog wrongver ws
    | .wrongVersion v => findFirefoxFrom user profile prog v ws
    | .hit => .found w.id
    | .panic => .panicked

/-- Go `findFirefox`, starting with `wrongver = ""`. -/
def findFirefox (user profile prog : List Char) (ws : List FWin) :
    FindResult :=
  findFirefoxFrom user profile prog [] ws

/-- A window that `findFirefox` accepts: exact protocol version and all
three identity filters pass. -/
def fullMatch (user profile prog : List Char) (w : FWin) : Prop :=
  w.vers = some firefoxVersion ∧ propMatch w.user user = true ∧
    profileMatch w.profile profile = some true ∧
    propMatch w.prog prog = true

theorem checkWin_hit_iff (user profile prog : List Char) (w : FWin) :
    checkWin user profile prog w = .hit ↔ fullMatch user profile prog w := by
  cases hv : w.vers with
  | none => simp [checkWin, fullMatch, hv]
  | some v =>
    rcases hp : profileMatch w.profile profile with _ | pm
    · by_cases hvf : v = firefoxVersion <;>
        by_cases hu : propMatch w.user user = true <;>
          simp [checkWin, fullMatch, hv, hp, hvf, hu]
    · by_cases hvf : v = firefoxVersion <;>
        by_cases hu : propMatch w.user user = true <;>
          by_cases hg : propMatch w.prog prog = true <;>
            cases pm <;>
              simp [checkWin, fullMatch, hv, hp, hvf, hu, hg]

theorem checkWin_wrongVersion_iff (user profile prog v2 : List Char)
    (w : FWin) :
    checkWin user profile prog w = .wrongVersion v2 ↔
      (w.vers = some v2 ∧ v2 ≠ firefoxVersion) := by
  cases hv : w.vers with
  | none => simp [checkWin, hv]
  | some v =>
    rcases hp : profileMatch w.profile profile with _ | pm
    · by_cases hvf : v = firefoxVersion <;>
        by_cases hu : propMatch w.user user = true <;>
          simp [checkWin, hv, hp, hvf, hu] <;> aesop
    · by_cases hvf : v = firefoxVersion <;>
        by_cases hu : propMatch w.user user = true <;>
          by_cases hg : propMatch w.prog prog = true <;>
            cases pm <;>
              simp [checkWin, hv, hp, hvf, hu, hg] <;> aesop

theorem findFirefoxFrom_found (user profile prog : List Char)
    (ws : List FWin) :
    ∀ wv id, findFirefoxFrom user profile prog wv ws = .found id →
      ∃ w ∈ ws, w.id = id ∧ fullMatch user profile prog w := by
  induction ws with
  | nil => intro wv id h; simp [findFirefoxFrom] at h
  | cons w ws ih =>
    intro wv id h
    rw [findFirefoxFrom] at h
    cases hc : checkWin user profile prog w with
    | skip =>
      rw [hc] at h
      obtain ⟨w2, hmem, hrest⟩ := ih wv id h
      exact ⟨w2, List.mem_cons_of_mem w hmem, hrest⟩
    | wrongVersion v =>
      rw [hc] at h
      obtain ⟨w2, hmem, hrest⟩ := ih v id h
      exact ⟨w2, List.mem_cons_of_mem w hmem, hrest⟩
    | hit =>
      rw [hc] at h
      have h2 : w.id = id := by simpa using h
      exact ⟨w, List.mem_cons_self w ws, h2,
        (checkWin_hit_iff user profile prog w).mp hc⟩
    | panic => rw [hc] at h; exact absurd h (by simp)

theorem findFirefoxFrom_notFound (user profile prog : List Char)
    (ws : List FWin) :
    ∀ wv wv2, findFirefoxFrom user profile prog wv ws = .notFound wv2 →
      (∀ w ∈ ws, ¬ fullMatch user profile prog w) ∧
      (wv2 = wv ∨ ∃ w ∈ ws, w.vers = some wv2 ∧ wv2 ≠ firefoxVersion) := by
  induction ws with
  | nil =>
    intro wv wv2 h
    rw [findFirefoxFrom] at h
    injection h with h2
    exact ⟨by simp, Or.inl h2.symm⟩
  | cons w ws ih =>
    intro wv wv2 h
    rw [findFirefoxFrom] at h
    cases hc : checkWin user profile prog w with
    | skip =>
      rw [hc] at h
      obtain ⟨hnone, hsrc⟩ := ih wv wv2 h
      refine ⟨?_, ?_⟩
      · intro w2 hmem
        rcases List.mem_cons.mp hmem with he | hm
        · subst he
          intro hfm
          rw [← checkWin_hit_iff user profile prog w2] at hfm
          rw [hfm] at hc
          exact absurd hc (by simp)
        · exact hnone w2 hm
      · rcases hsrc with he | ⟨w2, hmem, hrest⟩
        · exact Or.inl he
        · exact Or.inr ⟨w2, List.mem_cons_of_mem w hmem, hrest⟩
    | wrongVersion v =>
      rw [hc] at h
      obtain ⟨hnone, hsrc⟩ := ih v wv2 h
      have hwv := (checkWin_wrongVersion_iff user profile prog v w).mp hc
      refine ⟨?_, ?_⟩
      · intro w2 hmem
        rcases List.mem_cons.mp hmem with he | hm
        · subst he
          intro hfm
          rw [← checkWin_hit_iff user profile prog w2] at hfm
          rw [hfm] at hc
          exact absurd hc (by simp)
        · exact hnone w2 hm
      · rcases hsrc with he | ⟨w2, hmem, hrest⟩
        · exact Or.inr ⟨w, List.mem_cons_self w ws, he ▸ hwv.1, he ▸ hwv.2⟩
        · exact Or.inr ⟨w2, List.mem_cons_of_mem w hmem, hrest⟩
    | hit => rw [hc] at h; exact absurd h (by simp)
    | panic => rw [hc] at h; exact absurd h (by simp)

/-- **C6.** `findFirefox` never returns a window whose version property
differs from the fixed constant `"5.1"`: a returned handle always comes
from a listed window that carries exactly `firefoxVersion` and passes
all identity filters.  If no window fully matches, the scan returns the
NotFound result (Go return value 0); the wrong-version diagnostic (the
non-empty remembered value of a `notFound`) is emitted only when no
window matched, and its value was actually seen on a scanned window with
a version different from `"5.1"`. -/
theorem findFirefox_exact_version (user profile prog : List Char)
    (ws : List FWin)
    (hnp : findFirefox user profile prog ws ≠ .panicked) :
    (∀ id, findFirefox user profile prog ws = .found id →
        ∃ w ∈ ws, w.id = id ∧ fullMatch user profile prog w) ∧
    ((∀ w ∈ ws, ¬ fullMatch user profile prog w) →
        ∃ wv, findFirefox user profile prog ws = .notFound wv) ∧
    (∀ wv, findFirefox user profile prog ws = .notFound wv →
        ∀ w ∈ ws, ¬ fullMatch user profile prog w) ∧
    (∀ wv, findFirefox user profile prog ws = .notFound wv → wv ≠ [] →
        ∃ w ∈ ws, w.vers = some wv ∧ wv ≠ firefoxVersion) := by
  refine ⟨findFirefoxFrom_found user profile prog ws [], ?_, ?_, ?_⟩
  · intro hnone
    cases hr : findFirefox user profile prog ws with
    | found id =>
      obtain ⟨w, hmem, _, hfm⟩ := findFirefoxFrom_found user profile prog ws [] id hr
      exact absurd hfm (hnone w hmem)
    | notFound wv => exact ⟨wv, rfl⟩
    | panicked => exact absurd hr hnp
  · intro wv h
    exact (findFirefoxFrom_notFound user profile prog ws [] wv h).1
  · intro wv h hne
    rcases (findFirefoxFrom_notFound user profile prog ws [] wv h).2 with
      he | hsrc
    · exact absurd he hne
    · exact hsrc

/-- **C6 witness.** A scan over one wrong-version window (`"6.0"`) and
one exact-version window with matching filters: the instantiated theorem
applies, and concretely the exact-version window is the one returned. -/
theorem findFirefox_exact_version_witness :
    findFirefox [] [] []
        [⟨3, some ['6', '.', '0'], some ['u'], some ['p'], some ['f']⟩,
         ⟨7, some ['5', '.', '1'], some ['u'], some ['p'], some ['f']⟩]
      ≠ .panicked ∧
    (∀ id, findFirefox [] [] []
        [⟨3, some ['6', '.', '0'], some ['u'], some ['p'], some ['f']⟩,
         ⟨7, some ['5', '.', '1'], some ['u'], some ['p'], some ['f']⟩]
        = .found id →
      ∃ w ∈ [⟨3, some ['6', '.', '0'], some ['u'], some ['p'], some ['f']⟩,
             (⟨7, some ['5', '.', '1'], some ['u'], some ['p'],
               some ['f']⟩ : FWin)],
        w.id = id ∧ fullMatch [] [] [] w) :=
  ⟨by decide,
    (findFirefox_exact_version [] [] []
      [⟨3, some ['6', '.', '0'], some ['u'], some ['p'], some ['f']⟩,
       ⟨7, some ['5', '.', '1'], some ['u'], some ['p'], some ['f']⟩]
      (by decide)).1⟩

/-! ## Lock protocol (`tryLock`, `lockFirefox`, `unlockFirefox`)

One loop iteration of `lockFirefox` is driven by the environment: the
value the grabbed read of the lock property returns (`none` = read
failed / property absent), whether the `ChangeProp` write (if attempted)
succeeds, and — when the iteration has to wait — whether
`waitForPropChange` reports the window destroyed. -/

structure LockAttempt where
  lockVal : Option (List Char)
  writeOk : Bool
  waitDestroyed : Bool
deriving DecidableEq

/-- The placeholder value `tryLock` writes into the lock property. -/
def lockPlaceholder : List Char := "ffox-remote.go on somewhere".toList

/-- The lock-free test of `tryLock`:
`e != nil || len(p.Value) == 0`. -/
def lockIsFree (v : Option (List Char)) : Bool :=
  match v with
  | none => true
  | some s => s.isEmpty

/-- Go `tryLock` result: success iff the property was absent or empty
*and* the placeholder write succeeded. -/
def tryLock (a : LockAttempt) : Bool :=
  lockIsFree a.lockVal && a.writeOk

/-- The property-accessor operations one `tryLock` call performs, in
order: grab, read, conditional placeholder write, ungrab. -/
inductive LockOp where
  | grab
  | readLock
  | writeLock (v : List Char)
  | ungrab
  | waitEvt
deriving DecidableEq

def tryLockOps (a : LockAttempt) : List LockOp :=
  [.grab, .readLock]
    ++ (if lockIsFree a.lockVal then [.writeLock lockPlaceholder] else [])
    ++ [.ungrab]

inductive LockResult where
  | acquired
  | fatal
  | stillBlocked
deriving DecidableEq

/-- Go `lockFirefox`: loop `tryLock`; on failure wait for a property
change on the lock property, aborting fatally if the wait reports the
window destroyed; otherwise retry.  The schedule list is the sequence of
environment behaviours the loop consumes; running off its end means the
loop is still blocked.  The second component is the operation trace. -/
def lockFirefox : List LockAttempt → LockResult × List LockOp
  | [] => (.stillBlocked, [])
  | a :: rest =>
    if tryLock a then (.acquired, tryLockOps a)
    else if a.waitDestroyed then (.fatal, tryLockOps a ++ [.waitEvt])
    else
      ((lockFirefox rest).1, tryLockOps a ++ [.waitEvt] ++ (lockFirefox rest).2)

/-- The lock-acquisition loop exactly as the spec words it: enter the
exclusive grab, read the lock property; if absent or empty, write the
non-empty placeholder and exit the grab with success; otherwise exit the
grab and block for a property-change event, aborting fatally if the
window is destroyed, else retry.  (Spec-side definition, for comparison
with `lockFirefox`.) -/
def lockAcquireSpec : List LockAttempt → LockResult × List LockOp
  | [] => (.stillBlocked, [])
  | a :: rest =>
    if lockIsFree a.lockVal then
      (.acquired, [.grab, .readLock, .writeLock lockPlaceholder, .ungrab])
    else if a.waitDestroyed then
      (.fatal, [.grab, .readLock, .ungrab, .waitEvt])
    else
      ((lockAcquireSpec rest).1,
        [.grab, .readLock, .ungrab, .waitEvt] ++ (lockAcquireSpec rest).2)

/-- **C2.** When the placeholder writes succeed (the regime the claim
describes), `lockFirefox` is exactly the spec's algorithm — same result
(success / fatal-on-destroy / still blocked) and same ordered operation
trace; the placeholder written is non-empty; and there is no retry
bound: after any number `n` of contended attempts the loop is still
blocked. -/
theorem lockFirefox_follows_spec (sched : List LockAttempt)
    (hw : sched.all (fun a => a.writeOk) = true) :
    lockFirefox sched = lockAcquireSpec sched ∧
    lockPlaceholder ≠ [] ∧
    (∀ n, (lockFirefox
        (List.replicate n ⟨some ['x'], true, false⟩)).1 = .stillBlocked) := by
  refine ⟨?_, by decide, ?_⟩
  · induction sched with
    | nil => rfl
    | cons a rest ih =>
      have ha : a.writeOk = true := by
        have := List.all_eq_true.mp hw a (List.mem_cons_self a rest)
        simpa using this
      have hrest : rest.all (fun a => a.writeOk) = true := by
        rw [List.all_eq_true]
        intro x hx
        exact List.all_eq_true.mp hw x (List.mem_cons_of_mem a hx)
      rw [lockFirefox, lockAcquireSpec]
      by_cases hf : lockIsFree a.lockVal = true
      · simp [tryLock, hf, ha, tryLockOps]
      · have hnf : lockIsFree a.lockVal = false := by
          simpa using hf
        simp only [tryLock, hnf, Bool.false_and, if_false, Bool.false_eq_true,
          tryLockOps]
        by_cases hd : a.waitDestroyed = true
        · simp [hd]
        · simp [hd, ih hrest]
  · intro n
    induction n with
    | zero => rfl
    | succ n ih =>
      rw [List.replicate_succ, lockFirefox]
      simp [tryLock, lockIsFree, ih]

/-- **C2 witness.** A schedule with one contended attempt (the holder's
non-empty value is read) followed by one free attempt: the code loop and
the spec loop agree, acquiring on the second attempt. -/
theorem lockFirefox_follows_spec_witness :
    ([⟨some ['x'], true, false⟩,
      (⟨none, true, false⟩ : LockAttempt)].all (fun a => a.writeOk)) = true ∧
    (lockFirefox [⟨some ['x'], true, false⟩, ⟨none, true, false⟩]
        = lockAcquireSpec [⟨some ['x'], true, false⟩, ⟨none, true, false⟩] ∧
      lockPlaceholder ≠ [] ∧
      (∀ n, (lockFirefox
          (List.replicate n ⟨some ['x'], true, false⟩)).1 = .stillBlocked)) :=
  ⟨by decide,
    lockFirefox_follows_spec
      [⟨some ['x'], true, false⟩, ⟨none, true, false⟩] (by decide)⟩

/-! ## Response retrieval (`getResponse`) and the session
(`submitCommand`, `unlockFirefox`) -/

/-- The state notified by a `PropertyNotify` event. -/
inductive PropState where
  | newValue
  | deleted
deriving DecidableEq

/-- Outcome of `waitForPropChange`: `good = false` means the window was
destroyed during the wait (the event is then undefined; `state` is the
arbitrary leftover value). -/
structure WaitOutcome where
  good : Bool
  state : PropState
deriving DecidableEq

/-- Go `getResponse`: empty string unless the wait succeeded with a
new-value transition and the subsequent property read succeeded. -/
def getResponse (w : WaitOutcome) (readRes : Option (List Char)) :
    List Char :=
  if w.good = false ∨ w.state ≠ PropState.newValue then []
  else
    match readRes with
    | some v => v
    | none => []

/-- Go `unlockFirefox`: unconditional delete of the lock property. -/
def unlockFirefox (_lock : Option (List Char)) : Option (List Char) := none

/-- The environment behaviours one `submitCommand` run consumes. -/
structure SessionEnv where
  listenOk : Bool
  lockSched : List LockAttempt
  cmdWriteOk : Bool
  respWait : WaitOutcome
  respRead : Option (List Char)
deriving DecidableEq

inductive SessionOutcome where
  | done (resp : List Char)
  | fatalListen
  | fatalLockDestroyed
  | lockBlocked
  | fatalCmdWrite
deriving DecidableEq

/-- A `submitCommand` run: its outcome, the lock property as left by
this client's own writes and deletes (on the `fatalLockDestroyed` /
`lockBlocked` paths the property belongs to another client or vanished
with the window, and `finalLock` just echoes the initial value), and
whether `lockFirefox` was invoked. -/
structure SessionTrace where
  outcome : SessionOutcome
  finalLock : Option (List Char)
  acquireCalled : Bool
deriving DecidableEq

/-- Go `submitCommand`: listen for events (fatal on failure), lock
unless forced, write the command-line property (on failure: unlock, then
fatal), wait for and read the response, unlock, return the response. -/
def submitCommand (initLock : Option (List Char)) (force : Bool)
    (env : SessionEnv) : SessionTrace :=
  if env.listenOk = false then ⟨.fatalListen, initLock, false⟩
  else
    match (if force then LockResult.acquired
           else (lockFirefox env.lockSched).1) with
    | .fatal => ⟨.fatalLockDestroyed, initLock, !force⟩
    | .stillBlocked => ⟨.lockBlocked, initLock, !force⟩
    | .acquired =>
      if env.cmdWriteOk = false then
        ⟨.fatalCmdWrite, unlockFirefox initLock, !force⟩
      else
        ⟨.done (getResponse env.respWait env.respRead),
          unlockFirefox initLock, !force⟩

/-- **C7.** With `force = true` (and the event listen succeeding, the
one step before the lock logic that can abort), lock acquisition is
bypassed — `lockFirefox` is never invoked — yet `unlockFirefox` still
runs on every remaining path, so the session leaves the lock property
absent whatever its initial value (held, free, or stale). -/
theorem submitCommand_force_clears_lock (initLock : Option (List Char))
    (env : SessionEnv) (hl : env.listenOk = true) :
    (submitCommand initLock true env).acquireCalled = false ∧
    (submitCommand initLock true env).finalLock = none := by
  rw [submitCommand, hl]
  by_cases hc : env.cmdWriteOk = false <;> simp [hc, unlockFirefox]

/-- **C7 witness.** Force-mode session over a stale held lock: the lock
is left absent and acquisition was bypassed. -/
theorem submitCommand_force_clears_lock_witness :
    ({ listenOk := true, lockSched := [], cmdWriteOk := true,
       respWait := ⟨true, .newValue⟩,
       respRead := some ['2', '0', '0'] } : SessionEnv).listenOk = true ∧
    ((submitCommand (some ['x']) true
        { listenOk := true, lockSched := [], cmdWriteOk := true,
          respWait := ⟨true, .newValue⟩,
          respRead := some ['2', '0', '0'] }).acquireCalled = false ∧
      (submitCommand (some ['x']) true
        { listenOk := true, lockSched := [], cmdWriteOk := true,
          respWait := ⟨true, .newValue⟩,
          respRead := some ['2', '0', '0'] }).finalLock = none) :=
  ⟨rfl, submitCommand_force_clears_lock (some ['x'])
    { listenOk := true, lockSched := [], cmdWriteOk := true,
      respWait := ⟨true, .newValue⟩, respRead := some ['2', '0', '0'] } rfl⟩

/-- **C8 counterexample.** The claim says an accessor-level write failure
during the lock-set step is surfaced as fatal after a best-effort
release, and that only lock contention is retried.  In the code a failed
placeholder write just makes `tryLock` return false, and `lockFirefox`
waits and retries exactly as for contention: with the lock property
absent but the write failing once, the loop neither releases nor aborts
— it waits, retries, and acquires on the second attempt. -/
theorem lockFirefox_retries_write_failure :
    (lockFirefox [⟨none, false, false⟩, ⟨none, true, false⟩]).1
        = .acquired ∧
    (lockFirefox [⟨none, false, false⟩]).1 = .stillBlocked := by
  decide

/-- **C8 (amended).** Only a command-line write failure triggers the
best-effort release-then-fatal: whenever the command write fails after
the session reached it (forced, or the lock acquired), the session ends
in `fatalCmdWrite` with the lock property deleted.  A lock-set write
failure is instead treated exactly like contention: `tryLock` fails and
the loop waits for a property change and retries (fatal only if the wait
reports the window destroyed). -/
theorem submitCommand_release_before_fatal (initLock : Option (List Char))
    (force : Bool) (env : SessionEnv) (hl : env.listenOk = true)
    (hc : env.cmdWriteOk = false)
    (hacq : force = true ∨ (lockFirefox env.lockSched).1 = .acquired) :
    submitCommand initLock force env
        = ⟨.fatalCmdWrite, none, !force⟩ ∧
    (∀ a rest, tryLock a = false → a.waitDestroyed = false →
        (lockFirefox (a :: rest)).1 = (lockFirefox rest).1) ∧
    (∀ a rest, tryLock a = false → a.waitDestroyed = true →
        (lockFirefox (a :: rest)).1 = .fatal) := by
  refine ⟨?_, ?_, ?_⟩
  · rw [submitCommand, hl]
    rcases hacq with hf | ha
    · subst hf
      simp [hc, unlockFirefox]
    · by_cases hf : force = true
      · subst hf
        simp [hc, unlockFirefox]
      · have : force = false := by simpa using hf
        subst this
        simp only [if_false, Bool.false_eq_true, ha, hc]
        simp [unlockFirefox]
  · intro a rest hta hwd
    rw [lockFirefox]
    simp [hta, hwd]
  · intro a rest hta hwd
    rw [lockFirefox]
    simp [hta, hwd]

/-- **C8 witness.** The amended statement at a forced session whose
command write fails over a held lock. -/
theorem submitCommand_release_before_fatal_witness :
    ({ listenOk := true, lockSched := [], cmdWriteOk := false,
       respWait := ⟨true, .newValue⟩, respRead := none } :
        SessionEnv).listenOk = true ∧
    ({ listenOk := true, lockSched := [], cmdWriteOk := false,
       respWait := ⟨true, .newValue⟩, respRead := none } :
        SessionEnv).cmdWriteOk = false ∧
    (submitCommand (some ['x']) true
        { listenOk := true, lockSched := [], cmdWriteOk := false,
          respWait := ⟨true, .newValue⟩, respRead := none }
        = ⟨.fatalCmdWrite, none, !true⟩ ∧
      (∀ a rest, tryLock a = false → a.waitDestroyed = false →
          (lockFirefox (a :: rest)).1 = (lockFirefox rest).1) ∧
      (∀ a rest, tryLock a = false → a.waitDestroyed = true →
          (lockFirefox (a :: rest)).1 = .fatal)) :=
  ⟨rfl, rfl,
    submitCommand_release_before_fatal (some ['x']) true
      { listenOk := true, lockSched := [], cmdWriteOk := false,
        respWait := ⟨true, .newValue⟩, respRead := none }
      rfl rfl (Or.inl rfl)⟩

/-- **C9.** The session's return value is whatever `getResponse` yields:
the string read from the response property after the wait, and the empty
string whenever the wait failed because the window was destroyed
(`good = false`), or the observed transition was not a new-value
transition (a deletion of the response property), or the follow-up read
failed; a successful new-value wait with a successful read returns the
read string. -/
theorem getResponse_spec :
    (∀ env initLock force resp,
        submitCommand initLock force env = ⟨.done resp, none, !force⟩ →
          resp = getResponse env.respWait env.respRead) ∧
    (∀ st rd, getResponse ⟨false, st⟩ rd = []) ∧
    (∀ g rd, getResponse ⟨g, .deleted⟩ rd = []) ∧
    (∀ v, getResponse ⟨true, .newValue⟩ (some v) = v) ∧
    getResponse ⟨true, .newValue⟩ none = [] := by
  refine ⟨?_, ?_, ?_, ?_, ?_⟩
  · intro env initLock force resp h
    rw [submitCommand] at h
    by_cases hl : env.listenOk = false
    · rw [if_pos hl] at h
      exact absurd (congrArg SessionTrace.outcome h) (by simp)
    · rw [if_neg hl] at h
      rcases hr : (if force then LockResult.acquired
          else (lockFirefox env.lockSched).1) with _ | _ | _ <;>
        rw [hr] at h
      · by_cases hc : env.cmdWriteOk = false
        · rw [if_pos hc] at h
          exact absurd (congrArg SessionTrace.outcome h) (by simp)
        · rw [if_neg hc] at h
          have := congrArg SessionTrace.outcome h
          simp only [SessionOutcome.done.injEq] at this
          exact this.symm
      · exact absurd (congrArg SessionTrace.outcome h) (by simp)
      · exact absurd (congrArg SessionTrace.outcome h) (by simp)
  · intro st rd
    simp [getResponse]
  · intro g rd
    simp [getResponse]
  · intro v
    simp [getResponse]
  · simp [getResponse]

/-- **C9 witness.** A completed unforced session over a free lock whose
response wait observes a new value `"200"`: the session returns exactly
the `getResponse` value. -/
theorem getResponse_spec_witness :
    submitCommand (some ['x']) false
        { listenOk := true, lockSched := [⟨none, true, false⟩],
          cmdWriteOk := true, respWait := ⟨true, .newValue⟩,
          respRead := some ['2', '0', '0'] }
      = ⟨.done ['2', '0', '0'], none, !false⟩ ∧
    (['2', '0', '0'] : List Char)
      = getResponse ⟨true, .newValue⟩ (some ['2', '0', '0']) :=
  ⟨by decide,
    getResponse_spec.1
      { listenOk := true, lockSched := [⟨none, true, false⟩],
        cmdWriteOk := true, respWait := ⟨true, .newValue⟩,
        respRead := some ['2', '0', '0'] }
      (some ['x']) false ['2', '0', '0'] (by decide)⟩

end FfoxRemote
